import Mathlib

/-!
Shallow embedding of the content-to-index pipeline of this repository:
`scripts/load_content_v3.py` (embedding client, loader, post-load validator)
and `scripts/parse_content.py` (section parser).

Strings are modelled as Lean `String`s (manipulated as `List Char` where the
Python code works character-by-character through regular expressions), the
Postgres `chunks` table as a `List Row`, and the external embedding service as
an oracle function from (request number, batch) to an HTTP response.
-/

/-- An embedding vector as returned by the embedding service. -/
abbrev Emb := List Int

/-- A response from the embeddings endpoint: HTTP status code plus, for
successful responses, one embedding per input text (in input order). -/
structure EmbResponse where
  status_code : Nat
  data : List Emb
deriving DecidableEq, Repr

/-- Observable I/O events of `get_embeddings`: an HTTP POST of a batch, or a
`time.sleep` (in milliseconds: the code sleeps 5 s on a rate limit and 0.5 s
between consecutive batches). -/
inductive Event where
  | post : List String → Event
  | sleep : Nat → Event
deriving DecidableEq, Repr

/-- The embedding service, modelled as an oracle: given the number of POST
requests already made during this `get_embeddings` call and the batch being
posted, it yields the response. -/
abbrev Service := Nat → List String → EmbResponse

/-- The constant `BATCH_SIZE = 128` from `get_embeddings`. -/
def BATCH_SIZE : Nat := 128

/-- The batching loop of `get_embeddings` (`for i in range(0, len(texts),
BATCH_SIZE)`): POST the batch; on a 429, sleep 5 s and retry the same batch
once; any non-200 after that returns `None`; otherwise embeddings are
concatenated in batch order, with a 0.5 s sleep between consecutive batches.
Returns the result together with the trace of I/O events. -/
def runBatches (svc : Service) : List String → Nat → Option (List Emb) × List Event
  | [], _ => (some [], [])
  | t :: ts, n =>
    let texts := t :: ts
    let batch := texts.take BATCH_SIZE
    let rest := texts.drop BATCH_SIZE
    let r0 := svc n batch
    let retried := r0.status_code = 429
    let r := if retried then svc (n + 1) batch else r0
    let n1 := if retried then n + 2 else n + 1
    let evs := if retried then [Event.post batch, Event.sleep 5000, Event.post batch]
               else [Event.post batch]
    if r.status_code ≠ 200 then (none, evs)
    else
      let evs2 := if rest.isEmpty then evs else evs ++ [Event.sleep 500]
      let res := runBatches svc rest n1
      (res.1.map (fun es => r.data ++ es), evs2 ++ res.2)
termination_by texts _ => texts.length
decreasing_by simp [List.length_drop, BATCH_SIZE]; omega

/-- The call `get_embeddings(texts)` with its I/O trace: `if not texts: return []`
(no request is issued), otherwise the batching loop runs. -/
def get_embeddings_run (svc : Service) (texts : List String) :
    Option (List Emb) × List Event :=
  if texts.isEmpty then (some [], [])
  else runBatches svc texts 0

/-- The value returned by `get_embeddings` (`None` on failure). -/
def get_embeddings (svc : Service) (texts : List String) : Option (List Emb) :=
  (get_embeddings_run svc texts).1

/-- The I/O events performed by a `get_embeddings` call. -/
def embedTrace (svc : Service) (texts : List String) : List Event :=
  (get_embeddings_run svc texts).2

/-- A follow-up suggestion `{text, target}`; `target` is `none` when the line
had no bracketed target id. -/
structure FollowUp where
  text : String
  target : Option String
deriving DecidableEq, Repr

/-- One element of `parsed_content.json`: the parser's output for a section. -/
structure ParsedSection where
  id : String
  questions : List String
  content : String
  drill_downs : List String
  follow_ups : List FollowUp
deriving DecidableEq, Repr

/-- A row of the `chunks` table, with the columns `load_content` writes. -/
structure Row where
  id : String
  chunk_type : String
  title : String
  content : String
  embedding : Option Emb
  question_text : Option String
  question_embedding : Option Emb
  tags : List String
  source_file : String
  follow_ups : List FollowUp
deriving DecidableEq, Repr

/-- The inner loop of `load_content`: for each question of a section, read
`question_embeddings[q_idx]`, increment the global `q_idx`, and insert a row
whose id is `f"{section['id']}_{q_idx}"` (note: `q_idx` after the increment,
i.e. the 1-based global question counter).  Returns the rows plus the final
`q_idx`; `none` models an `IndexError` on the embeddings list. -/
def questionRows (s : ParsedSection) (ce : Emb) (qes : List Emb) :
    List String → Nat → Option (List Row × Nat)
  | [], qIdx => some ([], qIdx)
  | q :: qs, qIdx =>
    match qes[qIdx]? with
    | none => none
    | some qe =>
      let qIdx1 := qIdx + 1
      let row : Row :=
        { id := s.id ++ "_" ++ toString qIdx1
          chunk_type := "content"
          title := s.id
          content := s.content
          embedding := some ce
          question_text := some q
          question_embedding := some qe
          tags := s.drill_downs
          source_file := "tombot-content-v3.md"
          follow_ups := s.follow_ups }
      match questionRows s ce qes qs qIdx1 with
      | none => none
      | some (rows, qF) => some (row :: rows, qF)

/-- The content-only row inserted after a section's question rows (`id` is the
bare section id, no question text or question embedding). -/
def contentRow (s : ParsedSection) (ce : Emb) : Row :=
  { id := s.id
    chunk_type := "content"
    title := s.id
    content := s.content
    embedding := some ce
    question_text := none
    question_embedding := none
    tags := s.drill_downs
    source_file := "tombot-content-v3.md"
    follow_ups := s.follow_ups }

/-- The insert loop of `load_content`: `for section_idx, section in
enumerate(sections)`, look up `content_embeddings[section_idx]`, insert one
row per question (threading the global `q_idx`), then the content-only row.
`none` models an `IndexError` on either embeddings list. -/
def insertLoop (ces qes : List Emb) :
    List ParsedSection → Nat → Nat → Option (List Row)
  | [], _, _ => some []
  | s :: rest, sIdx, qIdx =>
    match ces[sIdx]? with
    | none => none
    | some ce =>
      match questionRows s ce qes s.questions qIdx with
      | none => none
      | some (qrows, qIdx1) =>
        match insertLoop ces qes rest (sIdx + 1) qIdx1 with
        | none => none
        | some more => some (qrows ++ [contentRow s ce] ++ more)

/-- The post-load validation report: the four blocking checks (check 3 is the
two-sided section-coverage comparison), the informational statistics of
steps 5 and 6, and the final `validation_passed` flag. -/
structure Report where
  check1 : Bool
  check2 : Bool
  check3_missing : Bool
  check3_extra : Bool
  check4 : Bool
  q_count : Nat
  followup_rows : Nat
  passed : Bool
deriving DecidableEq, Repr

/-- The `POST-LOAD VALIDATION` block of `load_content`, reading the store the
way the SQL queries do:
1. `SELECT COUNT(*)` equals the number of rows the loop inserted;
2. no row has `chunk_type != 'content'`;
3. the distinct `title`s equal the set of parsed section ids (no missing, no
   extra);
4. per title (`GROUP BY title`), `COUNT(*) = len(questions) + 1` and
   `COUNT(question_embedding) = len(questions)` for every section;
5./6. informational counts (question-embedding rows, rows with a non-empty
   `follow_ups` payload) that are printed but never assigned to
   `validation_passed`. -/
def validate (sections : List ParsedSection) (inserted : Nat) (store : List Row) :
    Report :=
  let total_db := store.length
  let check1 := decide (total_db = inserted)
  let non_content := store.countP (fun r => decide (r.chunk_type ≠ "content"))
  let check2 := decide (non_content = 0)
  let check3_missing := sections.all (fun s => store.any (fun r => decide (r.title = s.id)))
  let check3_extra := store.all (fun r => sections.any (fun s => decide (r.title = s.id)))
  let check4 := sections.all (fun s =>
    decide (store.countP (fun r => decide (r.title = s.id)) = s.questions.length + 1) &&
    decide (store.countP (fun r => decide (r.title = s.id) && !r.question_embedding.isNone)
      = s.questions.length))
  let q_count := store.countP (fun r => !r.question_embedding.isNone)
  let followup_rows := store.countP (fun r => decide (r.follow_ups ≠ []))
  let passed := true && check1 && check2 && check3_missing && check3_extra && check4
  { check1 := check1, check2 := check2, check3_missing := check3_missing,
    check3_extra := check3_extra, check4 := check4, q_count := q_count,
    followup_rows := followup_rows, passed := passed }

/-- Outcome of running `load_content`: either an uncaught exception (e.g. an
`IndexError` while indexing an embeddings list) or a returned value, which is
Python `None` for the early `return`s and the boolean verdict otherwise. -/
inductive RunResult where
  | crashed : RunResult
  | returned : Option Bool → RunResult
deriving DecidableEq, Repr

/-- The list `content_texts`: one entry per section, in order. -/
def contentTexts (sections : List ParsedSection) : List String :=
  sections.map (·.content)

/-- The list `question_texts`: all question variants, in section order. -/
def questionTexts (sections : List ParsedSection) : List String :=
  (sections.map (·.questions)).flatten

/-- The function `load_content()` of `scripts/load_content_v3.py`, as a function of the
parsed sections, the service oracle, and the prior contents of the `chunks`
table.  Returns the run outcome and the final table contents.
Steps: the `ALTER TABLE` is a schema no-op here; `DELETE FROM chunks` clears
every row and is committed at once; `if not content_embeddings` / `if not
question_embeddings` treat both `None` and the empty list as failure and
return `None`; the insert loop's rows are committed together; the verdict of
the post-load validation is returned. -/
def load_content (svc : Service) (sections : List ParsedSection) (store0 : List Row) :
    RunResult × List Row :=
  let _ := store0
  let store1 : List Row := []
  match get_embeddings svc (contentTexts sections) with
  | none => (RunResult.returned none, store1)
  | some ces =>
    if ces.isEmpty then (RunResult.returned none, store1)
    else
      match get_embeddings svc (questionTexts sections) with
      | none => (RunResult.returned none, store1)
      | some qes =>
        if qes.isEmpty then (RunResult.returned none, store1)
        else
          match insertLoop ces qes sections 0 0 with
          | none => (RunResult.crashed, store1)
          | some rows =>
            let store2 := store1 ++ rows
            let report := validate sections rows.length store2
            (RunResult.returned (some report.passed), store2)

/-- The `__main__` block: `passed = load_content(); if not passed:
sys.exit(1)` — Python `None` and `False` are both falsy; an uncaught
exception also ends the process with a non-zero code. -/
def mainExitCode : RunResult → Nat
  | RunResult.crashed => 1
  | RunResult.returned p => if p = some true then 0 else 1

/-! ### Section parser (`scripts/parse_content.py`) -/

/-- Python whitespace (`\s`, `str.strip()`), for the ASCII range. -/
def isPySpace (c : Char) : Bool :=
  c = ' ' || c = '\t' || c = '\n' || c = '\r' || c = '\x0b' || c = '\x0c'

/-- Python `str.strip()` on a character list. -/
def stripChars (l : List Char) : List Char :=
  ((l.dropWhile isPySpace).reverse.dropWhile isPySpace).reverse

/-- Python `str.split(sep)` for a one-character separator. -/
def splitOnChar (sep : Char) : List Char → List (List Char)
  | [] => [[]]
  | c :: rest =>
    if c = sep then [] :: splitOnChar sep rest
    else
      match splitOnChar sep rest with
      | [] => [[c]]
      | g :: gs => (c :: g) :: gs

/-- Python `str.split('\n')`. -/
def splitOnNl (l : List Char) : List (List Char) :=
  splitOnChar '\n' l

/-- Step-bounded scanner for Python `str.replace(pat, rep)`: replace every
(leftmost, non-overlapping) occurrence of the non-empty `pat`.  Each step
consumes at least one character, so any `fuel ≥ s.length` yields the full
scan; recursion is on `fuel` to keep the function structurally recursive. -/
def pyReplaceGo (pat rep : List Char) : Nat → List Char → List Char
  | _, [] => []
  | 0, s => s
  | fuel + 1, c :: rest =>
    if pat ≠ [] ∧ (c :: rest).take pat.length = pat then
      rep ++ pyReplaceGo pat rep fuel ((c :: rest).drop pat.length)
    else c :: pyReplaceGo pat rep fuel rest

/-- Python `str.replace(pat, rep)` (the patterns used by `parse_section` are
never empty). -/
def pyReplace (s pat rep : List Char) : List Char :=
  pyReplaceGo pat rep s.length s

/-- Scanner for `<!--[^>]*-->`: after the opening `<!--`, consume characters
up to the first `>`; the match succeeds exactly when the two characters just
before that `>` are `--` (the greedy `[^>]*` cannot cross a `>`).  `acc`
holds the consumed characters, most recent first; returns what follows the
`>`. -/
def matchCommentAux : List Char → List Char → Option (List Char)
  | [], _ => none
  | c :: rest, acc =>
    if c = '>' then
      if acc.take 2 = ['-', '-'] then some rest else none
    else matchCommentAux rest (c :: acc)

/-- The optional trailing newline of the comment regex (`\n?`). -/
def dropOneNl : List Char → List Char
  | '\n' :: rest => rest
  | l => l

/-- Match `<!--[^>]*-->\n?` at the start of the input, returning the rest. -/
def matchComment (l : List Char) : Option (List Char) :=
  if l.take 4 = ['<', '!', '-', '-'] then
    (matchCommentAux (l.drop 4) []).map dropOneNl
  else none

/-- Step-bounded scanner for `re.sub(r'<!--[^>]*-->\n?', '', content)`: scan
left to right, removing every comment match.  A successful match consumes at
least one character, so any `fuel ≥ l.length` yields the full scan; recursion
is on `fuel` to keep the function structurally recursive. -/
def subCommentsGo : Nat → List Char → List Char
  | _, [] => []
  | 0, l => l
  | fuel + 1, c :: cs =>
    match matchComment (c :: cs) with
    | some rest => subCommentsGo fuel rest
    | none => c :: subCommentsGo fuel cs

/-- Python `re.sub(r'<!--[^>]*-->\n?', '', content)`. -/
def subComments (l : List Char) : List Char :=
  subCommentsGo l.length l

/-- One repetition `- .+` of the list-block regex: a `- ` marker followed by
at least one character (lines produced by splitting contain no newline). -/
def isDashLine (line : List Char) : Bool :=
  match line with
  | '-' :: ' ' :: _ :: _ => true
  | _ => false

/-- The group `((?:- .+\n?)+)`: the maximal run of leading `- ` lines, each
keeping its newline; when the run reaches the end of the input the final
newline is absent.  `none` when the first line is not a `- ` line. -/
def dashGroup (l : List Char) : Option (List Char) :=
  let lines := splitOnNl l
  let taken := lines.takeWhile isDashLine
  if taken.isEmpty then none
  else if taken.length = lines.length then some (List.intercalate ['\n'] taken)
  else some ((taken.map (fun ln => ln ++ ['\n'])).flatten)

/-- Attempt the block regex `LABEL\s*\n((?:- .+\n?)+)` at the start of `l`.
Under Python `re` backtracking the greedy `\s*\n` can only end at the final
newline of the maximal whitespace run (a list line cannot begin with
whitespace), so the run must end with a newline and the line group starts
right after it.  Returns `(group 0, group 1)`. -/
def tryMatchBlock (label l : List Char) : Option (List Char × List Char) :=
  if l.take label.length = label then
    let rest := l.drop label.length
    let w := rest.takeWhile isPySpace
    if w.getLast? = some '\n' then
      match dashGroup (rest.drop w.length) with
      | some g1 => some (label ++ w ++ g1, g1)
      | none => none
    else none
  else none

/-- Python `re.search` for the block regex: try each start position from the
left; the first match wins. -/
def searchBlock (label : List Char) : List Char → Option (List Char × List Char)
  | [] => none
  | c :: rest =>
    match tryMatchBlock label (c :: rest) with
    | some r => some r
    | none => searchBlock label rest

/-- The literal of the questions-block regex. -/
def QUESTIONS_LABEL : List Char := "**Questions that route here:**".toList

/-- The literal of the follow-ups-block regex. -/
def FOLLOWUPS_LABEL : List Char := "**Suggested follow-ups:**".toList

/-- Python `questions_block.strip().split('\n')`, keeping lines whose stripped form
starts with `- ` and taking `line.strip()[2:].strip()`. -/
def parseQuestionLines (block : List Char) : List String :=
  (splitOnNl (stripChars block)).filterMap (fun line =>
    let t := stripChars line
    if t.take 2 = ['-', ' '] then some (String.mk (stripChars (t.drop 2)))
    else none)

/-- The character class `[A-Z]`. -/
def isUpperAZ (c : Char) : Bool := 'A' ≤ c && c ≤ 'Z'

/-- The character class `[A-Z0-9_.]`. -/
def isIdChar (c : Char) : Bool :=
  ('A' ≤ c && c ≤ 'Z') || ('0' ≤ c && c ≤ '9') || c = '_' || c = '.'

/-- Python `re.match(r'- "([^"]+)"\s*\[([A-Z][A-Z0-9_.]+)\]', line)`: the greedy
`([^"]+)` runs to the next quote, `\s*` to the bracket, and the id is an
upper-case letter plus at least one more id character.  Returns
`(group 1, group 2)`. -/
def matchFollowUpFull (l : List Char) : Option (String × String) :=
  match l with
  | '-' :: ' ' :: '"' :: rest =>
    let text := rest.takeWhile (fun c => decide (c ≠ '"'))
    if text.isEmpty then none
    else
      match rest.drop text.length with
      | '"' :: rest2 =>
        match rest2.dropWhile isPySpace with
        | '[' :: c :: rest3 =>
          if isUpperAZ c then
            let idtail := rest3.takeWhile isIdChar
            if idtail.isEmpty then none
            else
              match rest3.drop idtail.length with
              | ']' :: _ => some (String.mk text, String.mk (c :: idtail))
              | _ => none
          else none
        | _ => none
      | _ => none
  | _ => none

/-- The fallback `re.match(r'- "([^"]+)"', line)`. -/
def matchFollowUpText (l : List Char) : Option String :=
  match l with
  | '-' :: ' ' :: '"' :: rest =>
    let text := rest.takeWhile (fun c => decide (c ≠ '"'))
    if text.isEmpty then none
    else
      match rest.drop text.length with
      | '"' :: _ => some (String.mk text)
      | _ => none
  | _ => none

/-- The body of the follow-ups loop for one line of the block: lines whose
stripped form starts with `- ` yield `{text, target}` on a full match,
`{text, target: None}` when only the quoted text matches, and nothing
otherwise. -/
def followUpOfLine (line : List Char) : Option FollowUp :=
  let t := stripChars line
  if t.take 2 = ['-', ' '] then
    match matchFollowUpFull t with
    | some (txt, tgt) => some { text := txt, target := some tgt }
    | none =>
      match matchFollowUpText t with
      | some txt => some { text := txt, target := none }
      | none => none
  else none

/-- Python `followups_block.strip().split('\n')` run through the loop body. -/
def parseFollowUpLines (block : List Char) : List FollowUp :=
  (splitOnNl (stripChars block)).filterMap followUpOfLine

/-- Match `<!-- DRILL-DOWNS: ([^>]+) -->` at the start of `l`: the greedy
`[^>]+` must stop three characters before the first `>`, which must be
preceded by ` --`.  Returns group 1. -/
def tryMatchDrill (l : List Char) : Option (List Char) :=
  let label := "<!-- DRILL-DOWNS: ".toList
  if l.take label.length = label then
    let rest := l.drop label.length
    let body := rest.takeWhile (fun c => decide (c ≠ '>'))
    match rest.drop body.length with
    | '>' :: _ =>
      if body.reverse.take 3 = ['-', '-', ' '] ∧ 4 ≤ body.length then
        some (body.take (body.length - 3))
      else none
    | _ => none
  else none

/-- Python `re.search` for the drill-downs regex. -/
def searchDrill : List Char → Option (List Char)
  | [] => none
  | c :: rest =>
    match tryMatchDrill (c :: rest) with
    | some g => some g
    | none => searchDrill rest

/-- Python `drilldown_match.group(1).split(',')`, each entry stripped, empties
dropped. -/
def parseDrillDowns (raw : List Char) : List String :=
  match searchDrill raw with
  | none => []
  | some g =>
    (splitOnChar ',' g).filterMap (fun d =>
      let t := stripChars d
      if t.isEmpty then none else some (String.mk t))

/-- The body computation of `parse_section`: replace the questions block
(its group 0) by the empty string, then the follow-ups block plus the stray
label literal, strip HTML comments, strip whitespace, and cut one trailing
`---` (stripping again). -/
def stripSection (raw : List Char) : List Char :=
  let c1 := match searchBlock QUESTIONS_LABEL raw with
    | some (g0, _) => pyReplace raw g0 []
    | none => raw
  let c2 := match searchBlock FOLLOWUPS_LABEL raw with
    | some (g0, _) => pyReplace (pyReplace c1 g0 []) FOLLOWUPS_LABEL []
    | none => c1
  let c3 := stripChars (subComments c2)
  if c3.reverse.take 3 = ['-', '-', '-'] then stripChars (c3.take (c3.length - 3))
  else c3

/-- The function `parse_section(section_id, raw)`: extract questions, drill-downs and
follow-ups, compute the remaining body, and drop the section (`None`) when
the body is empty. -/
def parse_section (section_id : String) (raw : String) : Option ParsedSection :=
  let l := raw.toList
  let questions := match searchBlock QUESTIONS_LABEL l with
    | some (_, g1) => parseQuestionLines g1
    | none => []
  let drill_downs := parseDrillDowns l
  let follow_ups := match searchBlock FOLLOWUPS_LABEL l with
    | some (_, g1) => parseFollowUpLines g1
    | none => []
  let content := stripSection l
  if content.isEmpty then none
  else some { id := section_id, questions := questions,
              content := String.mk content, drill_downs := drill_downs,
              follow_ups := follow_ups }

/-- Python `re.match(r'^## ([A-Z][A-Z0-9_.]+)\s*$', line)`: `## `, an id made of an
upper-case letter plus one or more id characters, then only whitespace up to
the end of the line. -/
def headerMatch (line : List Char) : Option String :=
  match line with
  | '#' :: '#' :: ' ' :: c :: rest =>
    if isUpperAZ c then
      let idtail := rest.takeWhile isIdChar
      if idtail.isEmpty then none
      else if (rest.drop idtail.length).all isPySpace then
        some (String.mk (c :: idtail))
      else none
    else none
  | _ => none

/-- The section-splitting loop of `parse_content_doc`: a header line starts a
new section; other lines accumulate into the current one (lines before the
first header are discarded); each section's raw text is the `'\n'.join` of
its lines.  `acc` holds the current section's lines in reverse. -/
def splitSections :
    List (List Char) → Option String → List (List Char) → List (String × List Char)
  | [], none, _ => []
  | [], some sid, acc => [(sid, List.intercalate ['\n'] acc.reverse)]
  | line :: rest, cur, acc =>
    match headerMatch line with
    | some sid2 =>
      match cur with
      | none => splitSections rest (some sid2) []
      | some sid =>
        (sid, List.intercalate ['\n'] acc.reverse) :: splitSections rest (some sid2) []
    | none =>
      match cur with
      | none => splitSections rest none acc
      | some sid => splitSections rest (some sid) (line :: acc)

/-- The function `parse_content_doc(content)`: split into sections, parse each, keep the
non-`None` results in order. -/
def parse_content_doc (content : String) : List ParsedSection :=
  (splitSections (splitOnNl content.toList) none []).filterMap
    (fun p => parse_section p.1 (String.mk p.2))

/-! ### Derived characterisations and concrete instances used by the theorems -/

/-- The identifying fields of a persisted row: `(id, title, content)`. -/
def rowKey (r : Row) : String × String × String := (r.id, r.title, r.content)

/-- The `(id, title, content)` triples of one section's question rows, with
the global question counter starting at `qIdx` (ids carry the counter value
after its increment). -/
def qKeys (sid scontent : String) : List String → Nat → List (String × String × String)
  | [], _ => []
  | _ :: qs, qIdx =>
    (sid ++ "_" ++ toString (qIdx + 1), sid, scontent) :: qKeys sid scontent qs (qIdx + 1)

/-- The `(id, title, content)` triples of all rows the insert loop writes,
section by section: question rows, then the content-only row, with the
global question counter threaded through. -/
def sectionKeys : List ParsedSection → Nat → List (String × String × String)
  | [], _ => []
  | s :: rest, qIdx =>
    qKeys s.id s.content s.questions qIdx ++ [(s.id, s.id, s.content)]
      ++ sectionKeys rest (qIdx + s.questions.length)

/-- Modelled from the spec: the id set the specification predicts, where the
variant of a question chunk is the 1-based index of the question *within its
own Section* (`(section.id, variant)` with a per-section counter). -/
def claimChunkIds (ss : List ParsedSection) : List String :=
  (ss.map (fun s =>
    ((List.range s.questions.length).map (fun j => s.id ++ "_" ++ toString (j + 1)))
      ++ [s.id])).flatten

/-- A pointwise-successful service: every request returns 200 and maps each
text to the one-component vector holding its length. -/
def csvc : Service := fun _ b => ⟨200, b.map (fun s => [(s.length : Int)])⟩

/-- A service that always answers 429 (rate limit). -/
def svc429 : Service := fun _ _ => ⟨429, []⟩

/-- Two parsed sections: `A` with two question variants, `B` with one. -/
def cSections : List ParsedSection :=
  [{ id := "A", questions := ["qa", "qb"], content := "ca",
     drill_downs := [], follow_ups := [] },
   { id := "B", questions := ["qc"], content := "cb",
     drill_downs := [], follow_ups := [] }]

/-- The rows `load_content csvc cSections` writes (note the global question
counter in `B_3`). -/
def cRows : List Row :=
  [{ id := "A_1", chunk_type := "content", title := "A", content := "ca",
     embedding := some [2], question_text := some ("qa"),
     question_embedding := some [2], tags := [],
     source_file := "tombot-content-v3.md", follow_ups := [] },
   { id := "A_2", chunk_type := "content", title := "A", content := "ca",
     embedding := some [2], question_text := some ("qb"),
     question_embedding := some [2], tags := [],
     source_file := "tombot-content-v3.md", follow_ups := [] },
   { id := "A", chunk_type := "content", title := "A", content := "ca",
     embedding := some [2], question_text := none,
     question_embedding := none, tags := [],
     source_file := "tombot-content-v3.md", follow_ups := [] },
   { id := "B_3", chunk_type := "content", title := "B", content := "cb",
     embedding := some [2], question_text := some ("qc"),
     question_embedding := some [2], tags := [],
     source_file := "tombot-content-v3.md", follow_ups := [] },
   { id := "B", chunk_type := "content", title := "B", content := "cb",
     embedding := some [2], question_text := none,
     question_embedding := none, tags := [],
     source_file := "tombot-content-v3.md", follow_ups := [] }]

/-- A row written by some other producer sharing the `chunks` table. -/
def foreignRow : Row :=
  { id := "x1", chunk_type := "tricky_questions", title := "X",
    content := "someone elses row", embedding := some [9],
    question_text := none, question_embedding := none, tags := [],
    source_file := "other.md", follow_ups := [] }

/-- A section raw text consisting only of a questions sub-block and a
trailing separator. -/
def emptyBodyRaw : String := "**Questions that route here:**\n- q1\n---"

/-- A document whose single section has an empty remaining body. -/
def emptyBodyDoc : String := "## ABC\n**Questions that route here:**\n- q1\n---"

/-- A section raw text whose follow-ups block holds one well-formed line and
one line with quoted text not placed directly after the `- ` marker. -/
def c9Raw : String :=
  "pre\n**Suggested follow-ups:**\n- \"a\" [X.Y]\n- say \"hi\"\nrest"

/-! ### Embedding client: batching, ordering, retries -/

theorem runBatches_nil (svc : Service) (n : Nat) :
    runBatches svc [] n = (some [], []) := by
  simp [runBatches]

theorem runBatches_pointwise (f : String → Emb) (svc : Service)
    (hsvc : ∀ n b, svc n b = ⟨200, b.map f⟩) :
    ∀ (N : Nat) (texts : List String) (n : Nat), texts.length ≤ N →
      (runBatches svc texts n).1 = some (texts.map f) := by
  intro N
  induction N with
  | zero =>
    intro texts n h
    have ht : texts = [] := List.eq_nil_of_length_eq_zero (Nat.le_zero.mp h)
    subst ht
    simp [runBatches]
  | succ N ih =>
    intro texts n h
    cases texts with
    | nil => simp [runBatches]
    | cons t ts =>
      have hlen : ((t :: ts).drop BATCH_SIZE).length ≤ N := by
        simp only [List.length_drop, BATCH_SIZE]
        simp only [List.length_cons] at h ⊢
        omega
      have hrec := ih ((t :: ts).drop BATCH_SIZE) (n + 1) hlen
      rw [runBatches]
      simp only [hsvc]
      simp only [show ((⟨200, ((t :: ts).take BATCH_SIZE).map f⟩ : EmbResponse).status_code = 429) = False
        from by simp, if_false, ite_false, if_neg]
      simp [hrec, ← List.map_append]

theorem get_embeddings_pointwise (f : String → Emb) (svc : Service)
    (hsvc : ∀ n b, svc n b = ⟨200, b.map f⟩) (texts : List String) :
    get_embeddings svc texts = some (texts.map f) := by
  unfold get_embeddings get_embeddings_run
  by_cases h : texts.isEmpty
  · have ht : texts = [] := by
      cases texts with
      | nil => rfl
      | cons a l => simp [List.isEmpty] at h
    subst ht
    simp
  · simp only [h, Bool.false_eq_true, if_false, ite_false, if_neg]
    exact runBatches_pointwise f svc hsvc texts.length texts 0 le_rfl

theorem load_content_embed_fail (svc : Service) (sections : List ParsedSection)
    (store0 : List Row)
    (hfail : get_embeddings svc (contentTexts sections) = none ∨
      get_embeddings svc (questionTexts sections) = none) :
    load_content svc sections store0 = (RunResult.returned none, []) := by
  simp only [load_content]
  cases hc : get_embeddings svc (contentTexts sections) with
  | none => simp
  | some ces =>
    rcases hfail with hf | hf
    · rw [hc] at hf; cases hf
    · by_cases hce : ces.isEmpty
      · simp [hce]
      · simp only [hce, Bool.false_eq_true, if_false, ite_false, if_neg]
        rw [hf]

/-- C5: assuming every embedding-service request succeeds (one vector per
input, in input order), `get_embeddings` returns one vector per input text,
in input order — also when the input is internally split into consecutive
batches of at most `BATCH_SIZE` — and the empty input returns the empty list
without issuing any request (the run's I/O trace is empty, for any
service). -/
theorem get_embeddings_ordered (f : String → Emb) (svc : Service)
    (hsvc : ∀ n b, svc n b = ⟨200, b.map f⟩) :
    (∀ texts : List String, get_embeddings svc texts = some (texts.map f)) ∧
    (∀ svc2 : Service, get_embeddings_run svc2 [] = (some [], [])) :=
  ⟨fun texts => get_embeddings_pointwise f svc hsvc texts, fun _ => rfl⟩

theorem get_embeddings_ordered_witness :
    get_embeddings csvc ["a", "bb", "ccc"] = some [[1], [2], [3]] ∧
    get_embeddings_run csvc [] = (some [], []) := by
  have h := get_embeddings_ordered (fun s => [(s.length : Int)]) csvc
    (fun n b => rfl)
  exact ⟨(h.1 ["a", "bb", "ccc"]).trans (by decide), h.2 csvc⟩

theorem runBatches_429_fail (svc : Service) (texts : List String) (n : Nat)
    (hne : texts ≠ [])
    (h429 : (svc n (texts.take BATCH_SIZE)).status_code = 429)
    (hfail : (svc (n + 1) (texts.take BATCH_SIZE)).status_code ≠ 200) :
    runBatches svc texts n =
      (none, [Event.post (texts.take BATCH_SIZE), Event.sleep 5000,
        Event.post (texts.take BATCH_SIZE)]) := by
  cases texts with
  | nil => exact absurd rfl hne
  | cons t ts =>
    rw [runBatches]
    simp only [h429, if_pos rfl]
    simp [hfail]

theorem runBatches_429_trace (svc : Service) (texts : List String) (n : Nat)
    (hne : texts ≠ [])
    (h429 : (svc n (texts.take BATCH_SIZE)).status_code = 429) :
    (runBatches svc texts n).2.take 3 =
      [Event.post (texts.take BATCH_SIZE), Event.sleep 5000,
        Event.post (texts.take BATCH_SIZE)] := by
  cases texts with
  | nil => exact absurd rfl hne
  | cons t ts =>
    rw [runBatches]
    simp only [h429, eq_self_iff_true, if_true, ite_true]
    by_cases h2 : (svc (n + 1) ((t :: ts).take BATCH_SIZE)).status_code = 200
    · rw [if_neg (by simp [h2])]
      by_cases hrest : ((t :: ts).drop BATCH_SIZE).isEmpty
      · rw [if_pos hrest]
        simp [List.take_append_eq_append_take]
      · rw [if_neg hrest, List.append_assoc]
        simp [List.take_append_eq_append_take]
    · rw [if_pos h2]
      rfl

theorem runBatches_hard_fail (svc : Service) (texts : List String) (n : Nat)
    (hne : texts ≠ [])
    (hn429 : (svc n (texts.take BATCH_SIZE)).status_code ≠ 429)
    (hn200 : (svc n (texts.take BATCH_SIZE)).status_code ≠ 200) :
    runBatches svc texts n = (none, [Event.post (texts.take BATCH_SIZE)]) := by
  cases texts with
  | nil => exact absurd rfl hne
  | cons t ts =>
    rw [runBatches]
    simp [hn429, hn200]

/-- C6: on a 429 for a batch, `get_embeddings` sleeps a fixed 5 s and
re-POSTs the same batch exactly once; any non-200 answer on that retry (a
further 429 included) makes the call return `None` after exactly those three
events, and a non-429 non-200 answer on the first attempt is fatal
immediately (a single POST, no retry); when either embedding pass of
`load_content` returns `None`, the run returns Python `None` and leaves the
store empty — no row is inserted. -/
theorem rate_limit_retry (svc : Service) (texts : List String) (hne : texts ≠ []) :
    ((svc 0 (texts.take BATCH_SIZE)).status_code = 429 →
      (embedTrace svc texts).take 3 =
        [Event.post (texts.take BATCH_SIZE), Event.sleep 5000,
          Event.post (texts.take BATCH_SIZE)]) ∧
    ((svc 0 (texts.take BATCH_SIZE)).status_code = 429 →
      (svc 1 (texts.take BATCH_SIZE)).status_code ≠ 200 →
      get_embeddings_run svc texts =
        (none, [Event.post (texts.take BATCH_SIZE), Event.sleep 5000,
          Event.post (texts.take BATCH_SIZE)])) ∧
    ((svc 0 (texts.take BATCH_SIZE)).status_code ≠ 429 →
      (svc 0 (texts.take BATCH_SIZE)).status_code ≠ 200 →
      get_embeddings_run svc texts = (none, [Event.post (texts.take BATCH_SIZE)])) ∧
    (∀ (sections : List ParsedSection) (store0 : List Row),
      get_embeddings svc (contentTexts sections) = none ∨
      get_embeddings svc (questionTexts sections) = none →
      load_content svc sections store0 = (RunResult.returned none, [])) := by
  have hrun : get_embeddings_run svc texts = runBatches svc texts 0 := by
    cases texts with
    | nil => exact absurd rfl hne
    | cons t ts => simp [get_embeddings_run]
  refine ⟨?_, ?_, ?_, fun ss st0 hf => load_content_embed_fail svc ss st0 hf⟩
  · intro h429
    rw [embedTrace, hrun]
    exact runBatches_429_trace svc texts 0 hne h429
  · intro h429 hfail
    rw [hrun]
    exact runBatches_429_fail svc texts 0 hne h429 hfail
  · intro hn429 hn200
    rw [hrun]
    exact runBatches_hard_fail svc texts 0 hne hn429 hn200

theorem rate_limit_retry_witness :
    get_embeddings_run svc429 ["a"] =
      (none, [Event.post ["a"], Event.sleep 5000, Event.post ["a"]]) ∧
    load_content svc429 [{ id := "A", questions := ["qa"], content := "ca",
                            drill_downs := [], follow_ups := [] }] [foreignRow] =
      (RunResult.returned none, []) := by
  have h := rate_limit_retry svc429 ["a"] (by decide)
  constructor
  · have h2 := h.2.1 (by decide) (by decide)
    simpa using h2
  · refine h.2.2.2 _ _ (Or.inl ?_)
    have h3 := h.2.1 (by decide) (by decide)
    show (get_embeddings_run svc429 (contentTexts _)).1 = none
    have hct : contentTexts [({ id := "A", questions := ["qa"], content := "ca",
                                 drill_downs := [], follow_ups := [] } :
      ParsedSection)] = ["ca"] := rfl
    rw [hct]
    have h4 := (rate_limit_retry svc429 ["ca"] (by decide)).2.1 (by decide) (by decide)
    simp [h4]

/-! ### Loader: characterisation of the insert loop -/

theorem qKeys_length (sid scontent : String) :
    ∀ (qs : List String) (qIdx : Nat), (qKeys sid scontent qs qIdx).length = qs.length := by
  intro qs
  induction qs with
  | nil => intro qIdx; rfl
  | cons q qs ih => intro qIdx; simp [qKeys, ih]

theorem questionRows_spec (s : ParsedSection) (ce : Emb) (qes : List Emb) :
    ∀ (qs : List String) (qIdx : Nat) (rows : List Row) (qF : Nat),
      questionRows s ce qes qs qIdx = some (rows, qF) →
      qF = qIdx + qs.length ∧
      rows.map rowKey = qKeys s.id s.content qs qIdx ∧
      ∀ r ∈ rows, r.title = s.id ∧ r.content = s.content ∧ r.chunk_type = "content" ∧
        r.question_embedding.isNone = false ∧
        r.source_file = "tombot-content-v3.md" := by
  intro qs
  induction qs with
  | nil =>
    intro qIdx rows qF h
    simp only [questionRows, Option.some.injEq, Prod.mk.injEq] at h
    obtain ⟨h1, h2⟩ := h
    subst h1; subst h2
    simp [qKeys]
  | cons q qs ih =>
    intro qIdx rows qF h
    rw [questionRows] at h
    cases hq : qes[qIdx]? with
    | none => rw [hq] at h; cases h
    | some qe =>
      rw [hq] at h
      simp only at h
      cases hr : questionRows s ce qes qs (qIdx + 1) with
      | none => rw [hr] at h; cases h
      | some pr =>
        obtain ⟨rows1, qF1⟩ := pr
        rw [hr] at h
        simp only [Option.some.injEq, Prod.mk.injEq] at h
        obtain ⟨hrows, hqF⟩ := h
        obtain ⟨ih1, ih2, ih3⟩ := ih (qIdx + 1) rows1 qF1 hr
        subst hrows
        refine ⟨by simp only [← hqF, ih1, List.length_cons]; omega, ?_, ?_⟩
        · simp only [List.map_cons, qKeys, ih2, rowKey]
        · intro r hr2
          rcases List.mem_cons.mp hr2 with h | h
          · subst h
            exact ⟨rfl, rfl, rfl, rfl, rfl⟩
          · exact ih3 r h

theorem insertLoop_keys (ces qes : List Emb) :
    ∀ (ss : List ParsedSection) (sIdx qIdx : Nat) (rows : List Row),
      insertLoop ces qes ss sIdx qIdx = some rows →
      rows.map rowKey = sectionKeys ss qIdx ∧
      (∀ r ∈ rows, r.chunk_type = "content" ∧ r.source_file = "tombot-content-v3.md" ∧
        ∃ s, s ∈ ss ∧ r.title = s.id) ∧
      (∀ s ∈ ss, ∃ r, r ∈ rows ∧ r.title = s.id) := by
  intro ss
  induction ss with
  | nil =>
    intro sIdx qIdx rows h
    simp only [insertLoop, Option.some.injEq] at h
    subst h
    simp [sectionKeys]
  | cons s rest ih =>
    intro sIdx qIdx rows h
    rw [insertLoop] at h
    cases hce : ces[sIdx]? with
    | none => rw [hce] at h; cases h
    | some ce =>
      rw [hce] at h
      simp only at h
      cases hqr : questionRows s ce qes s.questions qIdx with
      | none => rw [hqr] at h; cases h
      | some pr =>
        obtain ⟨qrows, qIdx1⟩ := pr
        rw [hqr] at h
        simp only at h
        cases hil : insertLoop ces qes rest (sIdx + 1) qIdx1 with
        | none => rw [hil] at h; cases h
        | some more =>
          rw [hil] at h
          simp only [Option.some.injEq] at h
          subst h
          obtain ⟨hq1, hq2, hq3⟩ :=
            questionRows_spec s ce qes s.questions qIdx qrows qIdx1 hqr
          subst hq1
          obtain ⟨ih1, ih2, ih3⟩ := ih (sIdx + 1) (qIdx + s.questions.length) more hil
          refine ⟨?_, ?_, ?_⟩
          · simp only [List.map_append, hq2, ih1, sectionKeys, List.map_cons,
              List.map_nil, rowKey, contentRow]
          · intro r hrmem
            rcases List.mem_append.mp hrmem with h1 | h1
            · rcases List.mem_append.mp h1 with h2 | h2
              · obtain ⟨ht, _, hct, _, hsf⟩ := hq3 r h2
                exact ⟨hct, hsf, s, List.mem_cons_self s rest, ht⟩
              · have h3 : r = contentRow s ce := by simpa using h2
                subst h3
                exact ⟨rfl, rfl, s, List.mem_cons_self s rest, rfl⟩
            · obtain ⟨hct, hsf, s2, hs2, ht⟩ := ih2 r h1
              exact ⟨hct, hsf, s2, List.mem_cons_of_mem s hs2, ht⟩
          · intro s2 hs2
            rcases List.mem_cons.mp hs2 with h1 | h1
            · subst h1
              refine ⟨contentRow s2 ce, ?_, rfl⟩
              simp
            · obtain ⟨r, hr1, hr2⟩ := ih3 s2 h1
              exact ⟨r, by simp [hr1], hr2⟩

theorem insertLoop_counts (ces qes : List Emb) :
    ∀ (ss : List ParsedSection) (sIdx qIdx : Nat) (rows : List Row),
      insertLoop ces qes ss sIdx qIdx = some rows →
      (∀ tid : String,
        rows.countP (fun r => decide (r.title = tid)) =
          ((ss.filter (fun s => decide (s.id = tid))).map
            (fun s => s.questions.length + 1)).sum ∧
        rows.countP (fun r => decide (r.title = tid) && !r.question_embedding.isNone) =
          ((ss.filter (fun s => decide (s.id = tid))).map
            (fun s => s.questions.length)).sum) ∧
      rows.length = (ss.map (fun s => s.questions.length + 1)).sum ∧
      rows.countP (fun r => !r.question_embedding.isNone) =
        (ss.map (fun s => s.questions.length)).sum := by
  intro ss
  induction ss with
  | nil =>
    intro sIdx qIdx rows h
    simp only [insertLoop, Option.some.injEq] at h
    subst h
    simp
  | cons s rest ih =>
    intro sIdx qIdx rows h
    rw [insertLoop] at h
    cases hce : ces[sIdx]? with
    | none => rw [hce] at h; cases h
    | some ce =>
      rw [hce] at h
      simp only at h
      cases hqr : questionRows s ce qes s.questions qIdx with
      | none => rw [hqr] at h; cases h
      | some pr =>
        obtain ⟨qrows, qIdx1⟩ := pr
        rw [hqr] at h
        simp only at h
        cases hil : insertLoop ces qes rest (sIdx + 1) qIdx1 with
        | none => rw [hil] at h; cases h
        | some more =>
          rw [hil] at h
          simp only [Option.some.injEq] at h
          subst h
          obtain ⟨_, hq2, hq3⟩ :=
            questionRows_spec s ce qes s.questions qIdx qrows qIdx1 hqr
          obtain ⟨ih4, ih5, ih6⟩ := ih (sIdx + 1) qIdx1 more hil
          have hqlen : qrows.length = s.questions.length := by
            have hl := congrArg List.length hq2
            simpa [qKeys_length] using hl
          refine ⟨?_, ?_, ?_⟩
          · intro tid
            have hcr : (contentRow s ce).title = s.id := rfl
            have hcrq : (contentRow s ce).question_embedding.isNone = true := rfl
            by_cases hst : s.id = tid
            · have ha : qrows.countP (fun r => decide (r.title = tid)) = qrows.length :=
                List.countP_eq_length.mpr (fun r hrr => by
                  simp [(hq3 r hrr).1, hst])
              have hb : qrows.countP
                  (fun r => decide (r.title = tid) && !r.question_embedding.isNone) =
                  qrows.length :=
                List.countP_eq_length.mpr (fun r hrr => by
                  simp [(hq3 r hrr).1, hst, (hq3 r hrr).2.2.2.1])
              constructor
              · simp only [List.countP_append, ha, List.filter_cons, hst,
                  decide_True, if_pos, List.map_cons, List.sum_cons, (ih4 tid).1]
                simp [List.countP_cons, hcr, hst, hqlen]
              · simp only [List.countP_append, hb, List.filter_cons, hst,
                  decide_True, if_pos, List.map_cons, List.sum_cons, (ih4 tid).2]
                simp [List.countP_cons, hcr, hcrq, hst, hqlen]
            · have ha : qrows.countP (fun r => decide (r.title = tid)) = 0 :=
                List.countP_eq_zero.mpr (fun r hrr => by
                  simp [(hq3 r hrr).1, hst])
              have hb : qrows.countP
                  (fun r => decide (r.title = tid) && !r.question_embedding.isNone) = 0 :=
                List.countP_eq_zero.mpr (fun r hrr => by
                  simp [(hq3 r hrr).1, hst])
              constructor
              · simp only [List.countP_append, ha, List.filter_cons, hst,
                  decide_False, if_neg, (ih4 tid).1]
                simp [List.countP_cons, hcr, hst]
              · simp only [List.countP_append, hb, List.filter_cons, hst,
                  decide_False, if_neg, (ih4 tid).2]
                simp [List.countP_cons, hcr, hst]
          · simp only [List.length_append, hqlen, ih5, List.map_cons, List.sum_cons]
            simp
          · have ha : qrows.countP (fun r => !r.question_embedding.isNone) =
                qrows.length :=
              List.countP_eq_length.mpr (fun r hrr => by
                simp [(hq3 r hrr).2.2.2.1])
            simp only [List.countP_append, ha, ih6, List.map_cons, List.sum_cons]
            have hcrq : (contentRow s ce).question_embedding.isNone = true := rfl
            simp [List.countP_cons, hcrq, hqlen]

theorem filter_id_single :
    ∀ (ss : List ParsedSection), (ss.map (fun s => s.id)).Nodup →
      ∀ s ∈ ss, ss.filter (fun t => decide (t.id = s.id)) = [s] := by
  intro ss
  induction ss with
  | nil => intro _ s hs; cases hs
  | cons t rest ih =>
    intro hnd s hs
    have hnd2 : t.id ∉ rest.map (fun s => s.id) ∧ (rest.map (fun s => s.id)).Nodup := by
      simpa [List.nodup_cons] using hnd
    rcases List.mem_cons.mp hs with h1 | h1
    · subst h1
      have hrest : rest.filter (fun u => decide (u.id = s.id)) = [] := by
        rw [List.filter_eq_nil_iff]
        intro u hu hdec
        exact hnd2.1 (by
          have : u.id = s.id := by simpa using hdec
          rw [← this]
          exact List.mem_map_of_mem (fun v => v.id) hu)
      simp [List.filter_cons, hrest]
    · have hne : t.id ≠ s.id := by
        intro he
        exact hnd2.1 (he ▸ List.mem_map_of_mem (fun v => v.id) h1)
      rw [List.filter_cons]
      simp only [hne, decide_False, if_neg, Bool.false_eq_true, if_false, ite_false]
      exact ih hnd2.2 s h1

theorem load_content_returned (svc : Service) (sections : List ParsedSection)
    (store0 : List Row) (res : Bool) (st : List Row)
    (h : load_content svc sections store0 = (RunResult.returned (some res), st)) :
    ∃ ces qes rows, insertLoop ces qes sections 0 0 = some rows ∧ st = rows ∧
      res = (validate sections rows.length rows).passed := by
  simp only [load_content] at h
  cases hc : get_embeddings svc (contentTexts sections) with
  | none => rw [hc] at h; simp at h
  | some ces =>
    rw [hc] at h
    simp only at h
    by_cases hce : ces.isEmpty
    · simp [hce] at h
    · simp only [hce, Bool.false_eq_true, if_false, ite_false, if_neg] at h
      cases hq : get_embeddings svc (questionTexts sections) with
      | none => rw [hq] at h; simp at h
      | some qes =>
        rw [hq] at h
        simp only at h
        by_cases hqe : qes.isEmpty
        · simp [hqe] at h
        · simp only [hqe, Bool.false_eq_true, if_false, ite_false, if_neg] at h
          cases hil : insertLoop ces qes sections 0 0 with
          | none => rw [hil] at h; simp at h
          | some rows =>
            rw [hil] at h
            simp only [List.nil_append, Prod.mk.injEq, RunResult.returned.injEq,
              Option.some.injEq] at h
            exact ⟨ces, qes, rows, hil, h.2.symm, h.1.symm⟩

theorem validate_insertLoop (ces qes : List Emb) (ss : List ParsedSection)
    (rows : List Row) (hnd : (ss.map (fun s => s.id)).Nodup)
    (h : insertLoop ces qes ss 0 0 = some rows) :
    (validate ss rows.length rows).passed = true := by
  obtain ⟨_, hmem, hcover⟩ := insertLoop_keys ces qes ss 0 0 rows h
  obtain ⟨hcnt, _, _⟩ := insertLoop_counts ces qes ss 0 0 rows h
  simp only [validate]
  have h1 : decide (rows.length = rows.length) = true := by simp
  have h2 : rows.countP (fun r => decide (r.chunk_type ≠ "content")) = 0 :=
    List.countP_eq_zero.mpr (fun r hrr => by simp [(hmem r hrr).1])
  have h3 : ss.all (fun s => rows.any (fun r => decide (r.title = s.id))) = true := by
    rw [List.all_eq_true]
    intro s hs
    obtain ⟨r, hr1, hr2⟩ := hcover s hs
    exact List.any_eq_true.mpr ⟨r, hr1, by simp [hr2]⟩
  have h4 : rows.all (fun r => ss.any (fun s => decide (r.title = s.id))) = true := by
    rw [List.all_eq_true]
    intro r hrr
    obtain ⟨_, _, s, hs1, hs2⟩ := hmem r hrr
    exact List.any_eq_true.mpr ⟨s, hs1, by simp [hs2]⟩
  have h5 : ss.all (fun s =>
      decide (rows.countP (fun r => decide (r.title = s.id)) = s.questions.length + 1) &&
      decide (rows.countP
        (fun r => decide (r.title = s.id) && !r.question_embedding.isNone) =
        s.questions.length)) = true := by
    rw [List.all_eq_true]
    intro s hs
    have hf := filter_id_single ss hnd s hs
    have hc := hcnt s.id
    rw [hf] at hc
    simp only [List.map_cons, List.map_nil, List.sum_cons, List.sum_nil] at hc
    have hcong :
        rows.countP (fun r => decide (r.title = s.id) && r.question_embedding.isSome) =
        rows.countP (fun r => decide (r.title = s.id) && !r.question_embedding.isNone) :=
      List.countP_congr (fun r _ => by cases hqe : r.question_embedding <;> simp [hqe])
    have hc2 : rows.countP
        (fun r => decide (r.title = s.id) && r.question_embedding.isSome) =
        s.questions.length := by rw [hcong, hc.2]; omega
    simp [hc.1, hc2]
  simp [h1, h2, h3, h4, h5]
  constructor
  · intro r hrr
    exact (hmem r hrr).1
  · intro s hs
    have hf := filter_id_single ss hnd s hs
    have hc := hcnt s.id
    rw [hf] at hc
    simp only [List.map_cons, List.map_nil, List.sum_cons, List.sum_nil] at hc
    constructor
    · simpa using hc.1
    · have hcong :
          rows.countP (fun r => decide (r.title = s.id) && r.question_embedding.isSome) =
          rows.countP (fun r => decide (r.title = s.id) && !r.question_embedding.isNone) :=
        List.countP_congr (fun r _ => by cases hqe : r.question_embedding <;> simp [hqe])
      rw [hcong]
      simpa using hc.2

theorem load_content_eval :
    load_content csvc cSections [] = (RunResult.returned (some true), cRows) := by
  have h1 : get_embeddings csvc (contentTexts cSections) = some [[2], [2]] :=
    (get_embeddings_pointwise (fun s => [(s.length : Int)]) csvc (fun _ _ => rfl)
      (contentTexts cSections)).trans (by decide)
  have h2 : get_embeddings csvc (questionTexts cSections) = some [[2], [2], [2]] :=
    (get_embeddings_pointwise (fun s => [(s.length : Int)]) csvc (fun _ _ => rfl)
      (questionTexts cSections)).trans (by decide)
  simp only [load_content, h1, h2]
  decide

/-- C1: once `load_content` completes (sections with pairwise-distinct ids,
as the spec's Section invariant requires), every section with n question
variants owns exactly n+1 rows under its title, exactly n of which carry a
non-null question embedding; in total the store holds Σ(qᵢ+1) rows, Σqᵢ of
them with a non-null question embedding. -/
theorem section_row_counts (svc : Service) (ss : List ParsedSection)
    (store0 : List Row) (res : Bool) (st : List Row)
    (hnd : (ss.map (fun s => s.id)).Nodup)
    (h : load_content svc ss store0 = (RunResult.returned (some res), st)) :
    (∀ s ∈ ss,
      st.countP (fun r => decide (r.title = s.id)) = s.questions.length + 1 ∧
      st.countP (fun r => decide (r.title = s.id) && !r.question_embedding.isNone) =
        s.questions.length) ∧
    st.length = (ss.map (fun s => s.questions.length + 1)).sum ∧
    st.countP (fun r => !r.question_embedding.isNone) =
      (ss.map (fun s => s.questions.length)).sum := by
  obtain ⟨ces, qes, rows, hil, hst, _⟩ := load_content_returned svc ss store0 res st h
  subst hst
  obtain ⟨hcnt, hlen, hqc⟩ := insertLoop_counts ces qes ss 0 0 st hil
  refine ⟨?_, hlen, hqc⟩
  intro s hs
  have hf := filter_id_single ss hnd s hs
  have hc := hcnt s.id
  rw [hf] at hc
  simp only [List.map_cons, List.map_nil, List.sum_cons, List.sum_nil] at hc
  omega

theorem section_row_counts_witness :
    (cSections.map (fun s => s.id)).Nodup ∧
    cRows.countP (fun r => decide (r.title = "A")) = 3 ∧
    cRows.countP (fun r => decide (r.title = "A") && !r.question_embedding.isNone) = 2 ∧
    cRows.length = 5 ∧
    cRows.countP (fun r => !r.question_embedding.isNone) = 3 := by
  have h := section_row_counts csvc cSections [] true cRows (by decide)
    load_content_eval
  have hA := h.1 { id := "A", questions := ["qa", "qb"], content := "ca",
                   drill_downs := [], follow_ups := [] } (by decide)
  exact ⟨by decide, hA.1, hA.2, h.2.1.trans (by decide), h.2.2.trans (by decide)⟩

/-- C3 as stated is false: with two sections `A` (one question) and `B` (one
question), the loader persists the id `B_3` — `q_idx` is a global counter
over the whole document — while the claimed per-section 1-based variant would
give `B_1`. -/
theorem chunk_id_per_section_counterexample :
    (load_content csvc cSections []).2.map (fun r => r.id) ≠
      claimChunkIds cSections := by
  rw [load_content_eval]
  decide

/-- C3 amended: each persisted chunk id is derived deterministically from the
section id and the variant, where the variant of a question chunk is the
1-based position of the question in the whole document's question sequence
(the loader's global `q_idx` counter, not a per-section index) and the
content-only chunk keeps the bare section id; the resulting `(id, title,
content)` sequence is a function of the parsed sections alone, so a rerun on
unchanged input produces the same id set. -/
theorem chunk_id_global_deterministic (svc : Service) (ss : List ParsedSection)
    (store0 : List Row) (res : Bool) (st : List Row)
    (h : load_content svc ss store0 = (RunResult.returned (some res), st)) :
    st.map (fun r => r.id) = (sectionKeys ss 0).map (fun k => k.1) ∧
    (∀ (svc2 : Service) (store2 : List Row) (res2 : Bool) (st2 : List Row),
      load_content svc2 ss store2 = (RunResult.returned (some res2), st2) →
      st2.map (fun r => r.id) = st.map (fun r => r.id)) := by
  have main : ∀ (svc3 : Service) (store3 : List Row) (res3 : Bool) (st3 : List Row),
      load_content svc3 ss store3 = (RunResult.returned (some res3), st3) →
      st3.map (fun r => r.id) = (sectionKeys ss 0).map (fun k => k.1) := by
    intro svc3 store3 res3 st3 h3
    obtain ⟨ces, qes, rows, hil, hst, _⟩ :=
      load_content_returned svc3 ss store3 res3 st3 h3
    subst hst
    obtain ⟨hkeys, _, _⟩ := insertLoop_keys ces qes ss 0 0 st3 hil
    calc st3.map (fun r => r.id)
        = (st3.map rowKey).map (fun k => k.1) := by
          rw [List.map_map]; rfl
      _ = (sectionKeys ss 0).map (fun k => k.1) := by rw [hkeys]
  have h1 := main svc store0 res st h
  exact ⟨h1, fun svc2 store2 res2 st2 h2 => (main svc2 store2 res2 st2 h2).trans h1.symm⟩

theorem chunk_id_global_deterministic_witness :
    cRows.map (fun r => r.id) = ["A_1", "A_2", "A", "B_3", "B"] ∧
    (sectionKeys cSections 0).map (fun k => k.1) = ["A_1", "A_2", "A", "B_3", "B"] := by
  have h := chunk_id_global_deterministic csvc cSections [] true cRows
    load_content_eval
  exact ⟨by decide, h.1.symm.trans (by decide)⟩

/-- C7: running the pipeline twice on the same parsed sections (pairwise
distinct ids), with both runs completing, yields stores with identical
`(id, title, content)` rows — no accumulation across runs — and a passing
validation verdict both times. -/
theorem pipeline_idempotent (svc svc2 : Service) (ss : List ParsedSection)
    (store0 : List Row) (hnd : (ss.map (fun s => s.id)).Nodup)
    (p1 p2 : Bool) (st1 st2 : List Row)
    (h1 : load_content svc ss store0 = (RunResult.returned (some p1), st1))
    (h2 : load_content svc2 ss st1 = (RunResult.returned (some p2), st2)) :
    st1.map rowKey = st2.map rowKey ∧ p1 = true ∧ p2 = true := by
  obtain ⟨ces1, qes1, rows1, hil1, hst1, hp1⟩ :=
    load_content_returned svc ss store0 p1 st1 h1
  obtain ⟨ces2, qes2, rows2, hil2, hst2, hp2⟩ :=
    load_content_returned svc2 ss st1 p2 st2 h2
  subst hst1
  subst hst2
  obtain ⟨hk1, _, _⟩ := insertLoop_keys ces1 qes1 ss 0 0 st1 hil1
  obtain ⟨hk2, _, _⟩ := insertLoop_keys ces2 qes2 ss 0 0 st2 hil2
  refine ⟨hk1.trans hk2.symm, ?_, ?_⟩
  · rw [hp1]
    exact validate_insertLoop ces1 qes1 ss st1 hnd hil1
  · rw [hp2]
    exact validate_insertLoop ces2 qes2 ss st2 hnd hil2

theorem pipeline_idempotent_witness :
    load_content csvc cSections [] = (RunResult.returned (some true), cRows) ∧
    load_content csvc cSections cRows = (RunResult.returned (some true), cRows) ∧
    cRows.map rowKey = cRows.map rowKey := by
  have hsecond : load_content csvc cSections cRows =
      (RunResult.returned (some true), cRows) := load_content_eval
  have h := pipeline_idempotent csvc csvc cSections [] (by decide) true true
    cRows cRows load_content_eval hsecond
  exact ⟨load_content_eval, hsecond, h.1⟩

/-- C2 as stated is false: `DELETE FROM chunks` is unfiltered, so a row of a
different producer (`chunk_type ≠ "content"`) present before the reload is
gone afterwards, although the claim says it is left unchanged. -/
theorem delete_only_pipeline_rows_counterexample :
    foreignRow.chunk_type ≠ "content" ∧
    foreignRow ∈ [foreignRow] ∧
    foreignRow ∉ (load_content csvc [] [foreignRow]).2 := by decide

theorem load_content_store_cases (svc : Service) (ss : List ParsedSection)
    (store0 : List Row) :
    (load_content svc ss store0).2 = [] ∨
    ∃ ces qes rows, insertLoop ces qes ss 0 0 = some rows ∧
      (load_content svc ss store0).2 = rows := by
  simp only [load_content]
  cases hc : get_embeddings svc (contentTexts ss) with
  | none => left; rfl
  | some ces =>
    simp only
    by_cases hce : ces.isEmpty
    · simp only [hce, if_true, ite_true]
      left; trivial
    · simp only [hce, Bool.false_eq_true, if_false, ite_false, if_neg]
      cases hq : get_embeddings svc (questionTexts ss) with
      | none => left; rfl
      | some qes =>
        simp only
        by_cases hqe : qes.isEmpty
        · simp only [hqe, if_true, ite_true]
          left; trivial
        · simp only [hqe, Bool.false_eq_true, if_false, ite_false, if_neg]
          cases hil : insertLoop ces qes ss 0 0 with
          | none => left; rfl
          | some rows =>
            right
            exact ⟨ces, qes, rows, hil, by simp⟩

/-- C2 amended: the delete step wipes the whole `chunks` store regardless of
the kind tag — the run's outcome never depends on the prior store contents
(every pre-existing row, this pipeline's or any other producer's, is
removed), and every row present afterwards was written by this pipeline in
this run. -/
theorem delete_clears_all (svc : Service) (ss : List ParsedSection)
    (store0 store1 : List Row) :
    load_content svc ss store0 = load_content svc ss store1 ∧
    (∀ r ∈ (load_content svc ss store0).2,
      r.chunk_type = "content" ∧ r.source_file = "tombot-content-v3.md") := by
  refine ⟨rfl, ?_⟩
  intro r hr
  rcases load_content_store_cases svc ss store0 with hcase | ⟨ces, qes, rows, hil, hrows⟩
  · rw [hcase] at hr
    cases hr
  · rw [hrows] at hr
    obtain ⟨_, hmem, _⟩ := insertLoop_keys ces qes ss 0 0 rows hil
    exact ⟨(hmem r hr).1, (hmem r hr).2.1⟩

theorem delete_clears_all_witness :
    load_content csvc cSections [foreignRow] = load_content csvc cSections [] ∧
    (load_content csvc cSections [foreignRow]).2.all
      (fun r => r.chunk_type == "content" &&
        r.source_file == "tombot-content-v3.md") = true := by
  refine ⟨(delete_clears_all csvc cSections [foreignRow] []).1, ?_⟩
  rw [List.all_eq_true]
  intro r hr
  obtain ⟨h1, h2⟩ := (delete_clears_all csvc cSections [foreignRow] []).2 r hr
  simp [h1, h2]

/-- C4: the validation verdict is exactly the conjunction of checks 1–4; the
informational follow-up statistics never influence it (rewriting every row's
follow-up payload leaves the verdict unchanged); and the `__main__` block
exits 0 precisely when the returned verdict is a passing one, non-zero
otherwise. -/
theorem verdict_and_exit :
    (∀ (ss : List ParsedSection) (n : Nat) (store : List Row),
      (validate ss n store).passed =
        ((validate ss n store).check1 && (validate ss n store).check2 &&
         (validate ss n store).check3_missing && (validate ss n store).check3_extra &&
         (validate ss n store).check4)) ∧
    (∀ (ss : List ParsedSection) (n : Nat) (store : List Row)
        (g : Row → List FollowUp),
      (validate ss n (store.map (fun r => { r with follow_ups := g r }))).passed =
        (validate ss n store).passed) ∧
    (∀ (svc : Service) (ss : List ParsedSection) (store0 : List Row)
        (p : Bool) (st : List Row),
      load_content svc ss store0 = (RunResult.returned (some p), st) →
      (mainExitCode (load_content svc ss store0).1 = 0 ↔ p = true)) := by
  refine ⟨?_, ?_, ?_⟩
  · intro ss n store
    simp [validate]
  · intro ss n store g
    simp only [validate, List.countP_map, List.any_map, List.all_map,
      List.length_map, Function.comp]
    rfl
  · intro svc ss store0 p st h
    rw [h]
    cases p <;> simp [mainExitCode]

theorem verdict_and_exit_witness :
    ((validate cSections 5 cRows).passed =
      ((validate cSections 5 cRows).check1 && (validate cSections 5 cRows).check2 &&
       (validate cSections 5 cRows).check3_missing &&
       (validate cSections 5 cRows).check3_extra &&
       (validate cSections 5 cRows).check4)) ∧
    ((validate cSections 5
        (cRows.map (fun r => { r with
          follow_ups := [{ text := "x", target := none }] }))).passed =
      (validate cSections 5 cRows).passed) ∧
    (mainExitCode (load_content csvc cSections []).1 = 0 ↔ true = true) :=
  ⟨verdict_and_exit.1 cSections 5 cRows,
   verdict_and_exit.2.1 cSections 5 cRows
     (fun _ => [{ text := "x", target := none }]),
   verdict_and_exit.2.2 csvc cSections [] true cRows load_content_eval⟩

/-- C10: when the parsed sections yield no question text at all (no sections,
or every section's question list empty) and the embedding service itself
succeeds on every request, `load_content` treats the empty question-embedding
list as a failure (`if not question_embeddings`) and returns Python `None`
before inserting any row — but after the unconditional delete has been
committed, so the run ends with a non-zero exit code and an empty store. -/
theorem empty_questions_aborts (f : String → Emb) (svc : Service)
    (hsvc : ∀ n b, svc n b = ⟨200, b.map f⟩)
    (ss : List ParsedSection) (hq : questionTexts ss = []) (store0 : List Row) :
    load_content svc ss store0 = (RunResult.returned none, []) ∧
    mainExitCode (load_content svc ss store0).1 = 1 := by
  have hres : load_content svc ss store0 = (RunResult.returned none, []) := by
    cases ss with
    | nil => rfl
    | cons s rest =>
      have h1 : get_embeddings svc (contentTexts (s :: rest)) =
          some ((contentTexts (s :: rest)).map f) :=
        get_embeddings_pointwise f svc hsvc _
      have h2 : get_embeddings svc (questionTexts (s :: rest)) = some [] := by
        rw [hq]
        rfl
      simp only [load_content, h1, h2]
      simp [contentTexts]
  exact ⟨hres, by rw [hres]; rfl⟩

theorem empty_questions_aborts_witness :
    load_content csvc [{ id := "A", questions := [], content := "hello",
                         drill_downs := [], follow_ups := [] }] [foreignRow] =
      (RunResult.returned none, []) ∧
    mainExitCode (load_content csvc
      [{ id := "A", questions := [], content := "hello",
         drill_downs := [], follow_ups := [] }] [foreignRow]).1 = 1 :=
  empty_questions_aborts (fun s => [(s.length : Int)]) csvc (fun _ _ => rfl)
    [{ id := "A", questions := [], content := "hello",
       drill_downs := [], follow_ups := [] }] rfl [foreignRow]

/-! ### Section parser: empty bodies and follow-up lines -/

theorem parse_section_id (sid raw : String) (sec : ParsedSection)
    (h : parse_section sid raw = some sec) : sec.id = sid := by
  simp only [parse_section] at h
  by_cases hc : (stripSection raw.toList).isEmpty
  · rw [if_pos hc] at h
    cases h
  · rw [if_neg hc] at h
    simp only [Option.some.injEq] at h
    rw [← h]

theorem parse_section_empty (sid raw : String)
    (hstrip : stripSection raw.toList = []) : parse_section sid raw = none := by
  have hstrip2 : stripSection raw.data = [] := hstrip
  simp [parse_section, hstrip2]

/-- C8: a section whose remaining body is empty — after removing the
questions sub-block, the follow-ups sub-block, the HTML-comment annotations
and the trailing separator — is dropped: `parse_section` returns `None`, and
an id all of whose recorded raw texts strip to the empty body never appears
in the parsed output, so it contributes zero chunks. -/
theorem empty_body_dropped :
    (∀ (sid raw : String), stripSection raw.toList = [] →
      parse_section sid raw = none) ∧
    (∀ (doc sid : String),
      (∀ rawc : List Char,
        (sid, rawc) ∈ splitSections (splitOnNl doc.toList) none [] →
        stripSection rawc = []) →
      sid ∉ (parse_content_doc doc).map (fun s => s.id)) := by
  refine ⟨parse_section_empty, ?_⟩
  intro doc sid hall hmem
  obtain ⟨sec, hsec1, hsec2⟩ := List.mem_map.mp hmem
  obtain ⟨p, hp1, hp2⟩ := List.mem_filterMap.mp hsec1
  obtain ⟨a, b⟩ := p
  have hid : sec.id = a := parse_section_id a (String.mk b) sec hp2
  have hsid : a = sid := by rw [← hid, hsec2]
  subst hsid
  have hstrip : stripSection b = [] := hall b hp1
  have hnone := parse_section_empty a (String.mk b) hstrip
  rw [hp2] at hnone
  cases hnone

theorem empty_body_dropped_witness :
    stripSection emptyBodyRaw.toList = [] ∧
    parse_section ("ABC") emptyBodyRaw = none ∧
    "ABC" ∉ (parse_content_doc emptyBodyDoc).map (fun s => s.id) := by
  refine ⟨by decide, empty_body_dropped.1 "ABC" emptyBodyRaw (by decide),
    empty_body_dropped.2 emptyBodyDoc ("ABC") ?_⟩
  intro rawc hmem
  have hsplit : splitSections (splitOnNl emptyBodyDoc.toList) none [] =
      [("ABC", emptyBodyRaw.toList)] := by decide
  rw [hsplit] at hmem
  simp only [List.mem_singleton, Prod.mk.injEq] at hmem
  rw [hmem.2]
  decide

/-- C9 as stated is false: in the follow-ups block of `c9Raw` the line
`- say "hi"` contains quoted text and no bracketed target id, yet both
follow-up regexes anchor the quote directly after `- `, so the line is
silently dropped: the parsed section's follow-up list holds only the
well-formed entry and no `{text := "hi", target := none}`. -/
theorem followup_graceful_counterexample :
    (parse_section ("A") c9Raw).map (fun s => s.follow_ups) =
      some [{ text := "a", target := some ("X.Y") }] ∧
    ({ text := "hi", target := none } : FollowUp) ∉
      ((parse_section ("A") c9Raw).map (fun s => s.follow_ups)).getD [] := by
  constructor
  · decide
  · decide

theorem takeWhile_append_stop (p : Char → Bool) (xs : List Char) (y : Char)
    (ys : List Char) (hxs : ∀ x ∈ xs, p x = true) (hy : p y = false) :
    (xs ++ y :: ys).takeWhile p = xs ∧ (xs ++ y :: ys).drop xs.length = y :: ys := by
  constructor
  · induction xs with
    | nil => simp [List.takeWhile_cons, hy]
    | cons x xs ih =>
      have hx : p x = true := hxs x (List.mem_cons_self x xs)
      simp only [List.cons_append, List.takeWhile_cons, hx, if_true, ite_true]
      rw [ih (fun z hz => hxs z (List.mem_cons_of_mem x hz))]
  · induction xs with
    | nil => simp
    | cons x xs ih =>
      simp [ih (fun z hz => hxs z (List.mem_cons_of_mem x hz))]

theorem dropWhile_append_stop (p : Char → Bool) (xs : List Char) (y : Char)
    (ys : List Char) (hxs : ∀ x ∈ xs, p x = true) (hy : p y = false) :
    (xs ++ y :: ys).dropWhile p = y :: ys := by
  induction xs with
  | nil => simp [List.dropWhile_cons, hy]
  | cons x xs ih =>
    have hx : p x = true := hxs x (List.mem_cons_self x xs)
    simp only [List.cons_append, List.dropWhile_cons, hx, if_true, ite_true]
    exact ih (fun z hz => hxs z (List.mem_cons_of_mem x hz))

theorem matchFollowUpText_shape (text rest : List Char) (hne : text ≠ [])
    (hq : ∀ c ∈ text, c ≠ '"') :
    matchFollowUpText ('-' :: ' ' :: '"' :: (text ++ '"' :: rest)) =
      some (String.mk text) := by
  have hie : text.isEmpty = false := by
    cases text with
    | nil => exact absurd rfl hne
    | cons a l => rfl
  obtain ⟨htw, hdr⟩ := takeWhile_append_stop (fun c => decide (c ≠ '"')) text '"' rest
    (fun x hx => by simp [hq x hx]) (by simp)
  simp only [matchFollowUpText, htw, hdr, hie]
  simp

theorem matchFollowUpFull_text (text rest : List Char) (txt tgt : String)
    (hne : text ≠ []) (hq : ∀ c ∈ text, c ≠ '"')
    (h : matchFollowUpFull ('-' :: ' ' :: '"' :: (text ++ '"' :: rest)) =
      some (txt, tgt)) :
    txt = String.mk text := by
  have hie : text.isEmpty = false := by
    cases text with
    | nil => exact absurd rfl hne
    | cons a l => rfl
  obtain ⟨htw, hdr⟩ := takeWhile_append_stop (fun c => decide (c ≠ '"')) text '"' rest
    (fun x hx => by simp [hq x hx]) (by simp)
  simp only [matchFollowUpFull, htw, hdr, hie, Bool.false_eq_true, if_false,
    ite_false, if_neg] at h
  split at h
  · split at h
    · split at h
      · exact absurd h (by simp)
      · split at h
        · simp only [Option.some.injEq, Prod.mk.injEq] at h
          exact h.1.symm
        · exact absurd h (by simp)
    · exact absurd h (by simp)
  · exact absurd h (by simp)

theorem matchFollowUpFull_eval (text ws idt rest : List Char) (c : Char)
    (hne : text ≠ []) (hq : ∀ x ∈ text, x ≠ '"')
    (hws : ∀ x ∈ ws, isPySpace x = true) (hc : isUpperAZ c = true)
    (hidne : idt ≠ []) (hid : ∀ x ∈ idt, isIdChar x = true) :
    matchFollowUpFull ('-' :: ' ' :: '"' ::
      (text ++ '"' :: (ws ++ '[' :: c :: (idt ++ ']' :: rest)))) =
      some (String.mk text, String.mk (c :: idt)) := by
  have hie : text.isEmpty = false := by
    cases text with
    | nil => exact absurd rfl hne
    | cons a l => rfl
  have hidie : idt.isEmpty = false := by
    cases idt with
    | nil => exact absurd rfl hidne
    | cons a l => rfl
  obtain ⟨htw, hdr⟩ := takeWhile_append_stop (fun x => decide (x ≠ '"')) text '"'
    (ws ++ '[' :: c :: (idt ++ ']' :: rest)) (fun x hx => by simp [hq x hx]) (by simp)
  have hdw : (ws ++ '[' :: c :: (idt ++ ']' :: rest)).dropWhile isPySpace =
      '[' :: c :: (idt ++ ']' :: rest) :=
    dropWhile_append_stop isPySpace ws '[' (c :: (idt ++ ']' :: rest)) hws (by rfl)
  obtain ⟨htw2, hdr2⟩ := takeWhile_append_stop isIdChar idt ']' rest hid (by rfl)
  simp only [matchFollowUpFull, htw, hdr, hie, hdw, hc, htw2, hidie, hdr2]
  simp

/-- C9 amended: a follow-up line whose stripped form begins with `- "`
followed by a non-empty quote-free text and its closing quote is never
dropped and never fails: its quoted text is captured, with `target = none`
when the quoted-text-plus-bracket shape does not match; a line of the full
shape `- "text" [ID]` (spaces, then an id of an upper-case letter plus one or
more `[A-Z0-9_.]` characters in brackets) yields the bracketed id as the
target. -/
theorem followup_graceful_amended :
    (∀ (line text rest : List Char),
      stripChars line = '-' :: ' ' :: '"' :: (text ++ '"' :: rest) →
      text ≠ [] → (∀ x ∈ text, x ≠ '"') →
      (matchFollowUpFull (stripChars line) = none →
        followUpOfLine line = some { text := String.mk text, target := none }) ∧
      (∀ txt tgt, matchFollowUpFull (stripChars line) = some (txt, tgt) →
        followUpOfLine line = some { text := String.mk text, target := some tgt })) ∧
    (∀ (line text ws idt rest : List Char) (c : Char),
      stripChars line =
        '-' :: ' ' :: '"' :: (text ++ '"' :: (ws ++ '[' :: c :: (idt ++ ']' :: rest))) →
      text ≠ [] → (∀ x ∈ text, x ≠ '"') →
      (∀ x ∈ ws, isPySpace x = true) → isUpperAZ c = true →
      idt ≠ [] → (∀ x ∈ idt, isIdChar x = true) →
      followUpOfLine line =
        some { text := String.mk text, target := some (String.mk (c :: idt)) }) := by
  have hpart1 : ∀ (line text rest : List Char),
      stripChars line = '-' :: ' ' :: '"' :: (text ++ '"' :: rest) →
      text ≠ [] → (∀ x ∈ text, x ≠ '"') →
      (matchFollowUpFull (stripChars line) = none →
        followUpOfLine line = some { text := String.mk text, target := none }) ∧
      (∀ txt tgt, matchFollowUpFull (stripChars line) = some (txt, tgt) →
        followUpOfLine line = some { text := String.mk text, target := some tgt }) := by
    intro line text rest hs hne hq
    have hguard : (('-' :: ' ' :: '"' :: (text ++ '"' :: rest)).take 2) = ['-', ' '] := rfl
    constructor
    · intro hfull
      rw [hs] at hfull
      simp only [followUpOfLine, hs, hguard, eq_self_iff_true, if_true, ite_true,
        hfull, matchFollowUpText_shape text rest hne hq]
    · intro txt tgt hfull
      have htxt : txt = String.mk text :=
        matchFollowUpFull_text text rest txt tgt hne hq (by rw [← hs]; exact hfull)
      rw [hs] at hfull
      simp only [followUpOfLine, hs, hguard, eq_self_iff_true, if_true, ite_true,
        hfull, htxt]
  refine ⟨hpart1, ?_⟩
  intro line text ws idt rest c hs hne hq hws hc hidne hid
  have hfull := matchFollowUpFull_eval text ws idt rest c hne hq hws hc hidne hid
  have h2 := (hpart1 line text (ws ++ '[' :: c :: (idt ++ ']' :: rest)) hs hne hq).2
    (String.mk text) (String.mk (c :: idt)) (by rw [hs]; exact hfull)
  exact h2

theorem followup_graceful_amended_witness :
    followUpOfLine ("- \"go deeper\" [A.B]".toList) =
      some { text := "go deeper", target := some ("A.B") } ∧
    followUpOfLine ("- \"go deeper\"".toList) =
      some { text := "go deeper", target := none } := by
  constructor
  · exact followup_graceful_amended.2 ("- \"go deeper\" [A.B]".toList)
      ("go deeper".toList) [' '] (".B".toList) [] 'A'
      (by decide) (by decide) (by decide) (by decide) (by decide)
      (by decide) (by decide)
  · exact (followup_graceful_amended.1 ("- \"go deeper\"".toList)
      ("go deeper".toList) [] (by decide) (by decide) (by decide)).1 (by decide)
